import Mathlib

/-!
Verification development for the SlideGenAI data pipeline.

The Python source stores tables as pandas DataFrames.  We embed a DataFrame
as an ordered list of named, typed columns over an exact scalar type:
`Value.num` (a rational, standing for pandas int64/float64 cells),
`Value.str` (an object cell) and `Value.missing` (NaN).  Machine floats are
modelled by rationals; none of the verified claims depends on float rounding
error.  Each embedded operation carries a note naming the source function it
translates.
-/

/-- A scalar cell of a table: a number, a text value, or a missing value
(pandas NaN). -/
inductive Value where
  | num (q : ℚ)
  | str (s : String)
  | missing
deriving DecidableEq

/-- The pandas dtype of a column, restricted to the dtypes the source code
distinguishes (`select_dtypes(include=['int64','float64'])` vs object). -/
inductive DType where
  | int64
  | float64
  | object
deriving DecidableEq

/-- One named column of a table. -/
structure Column where
  name : String
  dtype : DType
  values : List Value
deriving DecidableEq

/-- A table: an ordered list of columns.  Well-formedness (equal column
lengths, unique names, dtype/value consistency) is the separate predicate
`WF`. -/
structure Table where
  cols : List Column
deriving DecidableEq

def Value.isMissing : Value → Bool
  | .missing => true
  | _ => false

def Value.toNum? : Value → Option ℚ
  | .num q => some q
  | _ => none

/-- Column names of a table, in order (pandas `df.columns`). -/
def Table.names (T : Table) : List String := T.cols.map (·.name)

/-- First column with the given name (pandas column lookup `df[c]`). -/
def Table.findCol (T : Table) (c : String) : Option Column :=
  T.cols.find? (fun col => col.name == c)

/-- Values of the named column; `[]` when the column is absent. -/
def Table.colValues (T : Table) (c : String) : List Value :=
  ((T.findCol c).map (·.values)).getD []

/-- Dtype of the named column; `object` when the column is absent. -/
def Table.dtypeOf (T : Table) (c : String) : DType :=
  ((T.findCol c).map (·.dtype)).getD .object

/-- Number of rows, read off the first column (pandas `len(df)`). -/
def Table.nRows (T : Table) : ℕ :=
  (T.cols.head?.map (fun c => c.values.length)).getD 0

/-- Pandas `df.empty`: no columns or no rows (under the equal-length
invariant the first column's length is the row count). -/
def Table.isEmpty (T : Table) : Bool :=
  T.cols.isEmpty || T.nRows == 0

/-- A value consistent with a column dtype: int64 cells are integer numbers
(pandas int64 admits no NaN), float64 cells are numbers or NaN, object cells
are anything. -/
def DType.admits : DType → Value → Prop
  | .int64, .num q => q.den = 1
  | .int64, _ => False
  | .float64, .num _ => True
  | .float64, .missing => True
  | .float64, .str _ => False
  | .object, _ => True

instance : ∀ (d : DType) (v : Value), Decidable (d.admits v) := by
  intro d v
  cases d <;> cases v <;> simp [DType.admits] <;> infer_instance

/-- Well-formed table: every column has the common row count, names are
unique, and every cell is consistent with its column's dtype. -/
def Table.WF (T : Table) : Prop :=
  (∀ c ∈ T.cols, c.values.length = T.nRows) ∧
  T.names.Nodup ∧
  (∀ c ∈ T.cols, ∀ v ∈ c.values, c.dtype.admits v)

instance (T : Table) : Decidable T.WF := by
  unfold Table.WF
  infer_instance

/-- Worker for `dedupFirst`: keep the elements not seen before, in
order. -/
def dedupFirstAux {α : Type} [DecidableEq α] (seen : List α) : List α → List α
  | [] => []
  | a :: l =>
    if a ∈ seen then dedupFirstAux seen l
    else a :: dedupFirstAux (a :: seen) l

/-- Deduplication keeping the first occurrence of each element.  Pandas
`groupby` emits one group per distinct key (it sorts the keys; the claims
here are insensitive to the order of the groups, so we keep
first-occurrence order). -/
def dedupFirst {α : Type} [DecidableEq α] (l : List α) : List α :=
  dedupFirstAux [] l

theorem dedupFirstAux_cons_mem {α : Type} [DecidableEq α] {seen : List α}
    {a : α} (l : List α) (h : a ∈ seen) :
    dedupFirstAux seen (a :: l) = dedupFirstAux seen l := by
  simp [dedupFirstAux, h]

theorem dedupFirstAux_cons_not_mem {α : Type} [DecidableEq α] {seen : List α}
    {a : α} (l : List α) (h : a ∉ seen) :
    dedupFirstAux seen (a :: l) = a :: dedupFirstAux (a :: seen) l := by
  simp [dedupFirstAux, h]

theorem mem_dedupFirstAux {α : Type} [DecidableEq α] (seen : List α) (l : List α)
    (x : α) : x ∈ dedupFirstAux seen l ↔ (x ∈ l ∧ x ∉ seen) := by
  induction l generalizing seen with
  | nil => simp [dedupFirstAux]
  | cons a t ih =>
    by_cases ha : a ∈ seen
    · rw [dedupFirstAux_cons_mem t ha]
      rw [ih]
      constructor
      · rintro ⟨hx, hxs⟩
        exact ⟨List.mem_cons_of_mem a hx, hxs⟩
      · rintro ⟨hx, hxs⟩
        rcases List.mem_cons.mp hx with rfl | hx
        · exact absurd ha hxs
        · exact ⟨hx, hxs⟩
    · rw [dedupFirstAux_cons_not_mem t ha]
      rw [List.mem_cons, ih]
      constructor
      · rintro (rfl | ⟨hx, hxs⟩)
        · exact ⟨List.mem_cons_self _ _, ha⟩
        · refine ⟨List.mem_cons_of_mem a hx, fun hxs2 => ?_⟩
          exact hxs (List.mem_cons_of_mem a hxs2)
      · rintro ⟨hx, hxs⟩
        rcases List.mem_cons.mp hx with rfl | hx
        · exact Or.inl rfl
        · by_cases hxa : x = a
          · exact Or.inl hxa
          · refine Or.inr ⟨hx, fun hmem => ?_⟩
            rcases List.mem_cons.mp hmem with rfl | h2
            · exact hxa rfl
            · exact hxs h2

theorem nodup_dedupFirstAux {α : Type} [DecidableEq α] (seen : List α)
    (l : List α) : (dedupFirstAux seen l).Nodup := by
  induction l generalizing seen with
  | nil => simp [dedupFirstAux]
  | cons a t ih =>
    by_cases ha : a ∈ seen
    · rw [dedupFirstAux_cons_mem t ha]
      exact ih seen
    · rw [dedupFirstAux_cons_not_mem t ha]
      rw [List.nodup_cons]
      refine ⟨fun hmem => ?_, ih (a :: seen)⟩
      rw [mem_dedupFirstAux] at hmem
      exact hmem.2 (List.mem_cons_self a seen)

theorem mem_dedupFirst {α : Type} [DecidableEq α] (l : List α) (x : α) :
    x ∈ dedupFirst l ↔ x ∈ l := by
  unfold dedupFirst
  rw [mem_dedupFirstAux]
  simp

theorem nodup_dedupFirst {α : Type} [DecidableEq α] (l : List α) :
    (dedupFirst l).Nodup := nodup_dedupFirstAux [] l

theorem dedupFirst_ne_nil {α : Type} [DecidableEq α] (l : List α) (h : l ≠ []) :
    dedupFirst l ≠ [] := by
  cases l with
  | nil => exact absurd rfl h
  | cons a t =>
    unfold dedupFirst
    rw [dedupFirstAux_cons_not_mem t (List.not_mem_nil a)]
    simp

instance {ε α : Type} [DecidableEq ε] [DecidableEq α] : DecidableEq (Except ε α) :=
  fun x y =>
  match x, y with
  | .ok a, .ok b =>
    if h : a = b then .isTrue (by rw [h])
    else .isFalse (fun hh => h (Except.ok.inj hh))
  | .error e, .error f =>
    if h : e = f then .isTrue (by rw [h])
    else .isFalse (fun hh => h (Except.error.inj hh))
  | .ok _, .error _ => .isFalse (fun hh => Except.noConfusion hh)
  | .error _, .ok _ => .isFalse (fun hh => Except.noConfusion hh)

/-! ## Aggregation Engine (src/data_processor.py) -/

/-- Names of the numeric columns: embeds
`df.select_dtypes(include=['int64', 'float64']).columns` from
`process_data` (src/data_processor.py line 46). -/
def numericNames (T : Table) : List String :=
  (T.cols.filter (fun c => c.dtype == .int64 || c.dtype == .float64)).map (·.name)

/-- Embeds `validate_input` (src/data_processor.py lines 5-22): checks the
grouping columns exist, the aggregation methods are drawn from the fixed
set, and the aggregation columns exist.  The `isinstance` check is carried
by the types of the embedding. -/
def validate_input (df : Table) (group_cols : List String)
    (agg_methods : List (String × String)) : Bool × String :=
  if !group_cols.isEmpty && !(group_cols.all (fun c => df.names.contains c)) then
    (false, "One or more grouping columns not found in data")
  else if !agg_methods.isEmpty then
    if !(agg_methods.all (fun p => ["sum", "mean", "count", "min", "max"].contains p.2)) then
      (false, "Invalid aggregation method specified")
    else if !(agg_methods.all (fun p => df.names.contains p.1)) then
      (false, "One or more aggregation columns not found in data")
    else (true, "")
  else (true, "")

/-- Fold a list to its extremum under `f`; `none` on the empty list.  Used
to model pandas `min`/`max` reductions, which skip NaN and return NaN on an
all-NaN group. -/
def foldOpt (f : ℚ → ℚ → ℚ) (l : List ℚ) : Option ℚ :=
  l.foldr (fun q acc => match acc with
    | none => some q
    | some m => some (f q m)) none

theorem foldOpt_mem (f : ℚ → ℚ → ℚ) (hf : ∀ a b, f a b = a ∨ f a b = b)
    (l : List ℚ) (m : ℚ) (h : foldOpt f l = some m) : m ∈ l := by
  induction l generalizing m with
  | nil => simp [foldOpt] at h
  | cons a t ih =>
    simp only [foldOpt, List.foldr_cons] at h
    rcases ht : (foldOpt f t) with _ | m'
    · rw [foldOpt] at ht
      rw [ht] at h
      simp only [Option.some.injEq] at h
      exact h ▸ List.mem_cons_self a t
    · rw [foldOpt] at ht
      rw [ht] at h
      simp only [Option.some.injEq] at h
      rcases hf a m' with hfa | hfb
      · rw [← h, hfa]
        exact List.mem_cons_self a t
      · rw [← h, hfb]
        exact List.mem_cons_of_mem a (ih m' ht)

/-- One pandas reduction applied to a list of cell values, skipping NaN:
embeds the per-column effect of `df.groupby(...).agg(agg_dict)`
(src/data_processor.py line 54) for a single group.  `sum` of an empty or
all-NaN group is 0, `mean`/`min`/`max` of such a group are NaN, `count`
counts the non-NaN cells of any dtype. -/
def aggValues (method : String) (vs : List Value) : Value :=
  let nums := vs.filterMap Value.toNum?
  if method = "sum" then .num nums.sum
  else if method = "mean" then
    if nums.length = 0 then .missing else .num (nums.sum / nums.length)
  else if method = "count" then .num (vs.countP (fun v => !v.isMissing) : ℕ)
  else if method = "min" then
    match foldOpt min nums with
    | some m => .num m
    | none => .missing
  else if method = "max" then
    match foldOpt max nums with
    | some m => .num m
    | none => .missing
  else .missing

/-- Result dtype of a pandas reduction: `count` yields int64, `mean` yields
float64, `sum`/`min`/`max` keep the input dtype. -/
def aggDType (method : String) (d : DType) : DType :=
  if method = "count" then .int64
  else if method = "mean" then .float64
  else d

/-- The group key of row `i` under the requested group columns: embeds the
key tuple formed by `df.groupby(group_cols)`. -/
def keyTuple (T : Table) (gcols : List String) (i : ℕ) : List Value :=
  gcols.map (fun g => (T.colValues g).getD i .missing)

/-- All row key tuples of the table, in row order. -/
def keyTuples (T : Table) (gcols : List String) : List (List Value) :=
  (List.range T.nRows).map (keyTuple T gcols)

/-- Key tuples with no missing component: pandas `groupby` drops rows whose
key contains NaN (`dropna=True` default). -/
def validKeyTuples (T : Table) (gcols : List String) : List (List Value) :=
  (keyTuples T gcols).filter (fun k => !k.contains Value.missing)

/-- Row indices belonging to the group with key `k`. -/
def groupIdxs (T : Table) (gcols : List String) (k : List Value) : List ℕ :=
  (List.range T.nRows).filter (fun i => keyTuple T gcols i == k)

/-- Cell values of column `c` restricted to the group with key `k`. -/
def groupValues (T : Table) (gcols : List String) (c : String) (k : List Value) :
    List Value :=
  (groupIdxs T gcols k).map (fun i => (T.colValues c).getD i .missing)

/-- Embeds `df.groupby(group_cols).agg(agg_dict).reset_index()`
(src/data_processor.py line 54): one output row per distinct non-NaN key
tuple, group-key columns first (request order), then one column per
aggregation entry (request order), each reduced independently.  Pandas
emits the groups sorted by key; the claims are insensitive to row order, so
the model keeps first-occurrence order.  Faithful when the aggregation
columns are disjoint from the group keys (pandas raises otherwise). -/
def groupbyAgg (T : Table) (gcols : List String)
    (aggs : List (String × String)) : Table :=
  let dk := dedupFirst (validKeyTuples T gcols)
  let keyCols := gcols.enum.map (fun jg =>
    Column.mk jg.2 (T.dtypeOf jg.2) (dk.map (fun k => k.getD jg.1 .missing)))
  let valCols := aggs.map (fun p =>
    Column.mk p.1 (aggDType p.2 (T.dtypeOf p.1))
      (dk.map (fun k => aggValues p.2 (groupValues T gcols p.1 k))))
  ⟨keyCols ++ valCols⟩

/-- First non-missing value of a list, `missing` when there is none: the
per-column behaviour of pandas `GroupBy.first()`. -/
def firstNonMissing (vs : List Value) : Value :=
  ((vs.filter (fun v => !v.isMissing)).head?).getD .missing

/-- Embeds `df.groupby(group_cols).first().reset_index()`
(src/data_processor.py line 41): one representative row per distinct key,
every non-key column taking the first non-NaN value of the group. -/
def groupbyFirst (T : Table) (gcols : List String) : Table :=
  let dk := dedupFirst (validKeyTuples T gcols)
  let keyCols := gcols.enum.map (fun jg =>
    Column.mk jg.2 (T.dtypeOf jg.2) (dk.map (fun k => k.getD jg.1 .missing)))
  let otherCols := (T.cols.filter (fun c => !gcols.contains c.name)).map (fun c =>
    Column.mk c.name c.dtype
      (dk.map (fun k => firstNonMissing (groupValues T gcols c.name k))))
  ⟨keyCols ++ otherCols⟩

/-- Rounding to 2 decimal places on exact rationals: embeds pandas
`.round(2)` (src/data_processor.py line 58).  Pandas rounds binary floats
(ties to even); the model rounds exactly with ties upward, which agrees
everywhere the claims evaluate it. -/
def round2 (q : ℚ) : ℚ := (⌊q * 100 + 1 / 2⌋ : ℚ) / 100

def roundValue : Value → Value
  | .num q => .num (round2 q)
  | v => v

/-- Cell-wise rounding of one column when its dtype is float64. -/
def roundCol (c : Column) : Column :=
  if c.dtype == .float64 then
    Column.mk c.name c.dtype (c.values.map roundValue)
  else c

/-- Embeds `grouped_df[numeric_columns] = grouped_df[...].round(2)` where
`numeric_columns` selects the float64 columns (src/data_processor.py lines
57-58): every float64 column of the result is rounded cell-wise. -/
def roundFloatCols (T : Table) : Table :=
  ⟨T.cols.map roundCol⟩

/-- Rounding as it lands on one result cell: float64 columns are rounded,
other columns pass through. -/
def roundIfFloat (d : DType) (v : Value) : Value :=
  if d == .float64 then roundValue v else v

/-- Distinct raise sites of `process_data` (src/data_processor.py).  Every
raise is re-raised by the final handler as
`Exception("Data processing failed: " + msg)`; the constructors keep the
structure of the messages (`invalid` carries the `validate_input` message,
`nonNumericAgg` the offending column list of the message
"Non-numeric columns cannot be aggregated with methods other than 'count'",
`emptyResult` stands for "Aggregation resulted in empty dataset"). -/
inductive ProcError where
  | invalid (msg : String)
  | nonNumericAgg (cols : List String)
  | emptyResult
deriving DecidableEq

/-- Embeds `process_data` (src/data_processor.py lines 24-64): validation,
the empty-`group_cols` copy shortcut, the empty-`agg_methods` `first()`
path, the numeric-column check, the grouped aggregation, float rounding,
and the empty-result check. -/
def process_data (df : Table) (group_cols : List String)
    (agg_methods : List (String × String)) : Except ProcError Table :=
  let v := validate_input df group_cols agg_methods
  if v.1 = false then .error (.invalid v.2)
  else if group_cols.isEmpty then .ok df
  else if agg_methods.isEmpty then .ok (groupbyFirst df group_cols)
  else
    let invalid_cols := (agg_methods.filter (fun p =>
      !(numericNames df).contains p.1 && !(p.2 == "count"))).map (·.1)
    if !invalid_cols.isEmpty then .error (.nonNumericAgg invalid_cols)
    else
      let rounded := roundFloatCols (groupbyAgg df group_cols agg_methods)
      if rounded.isEmpty then .error .emptyResult
      else .ok rounded

/-! ## Table Loader (src/utils.py) -/

/-- A character of the safe identifier set of the sanitisation pattern
`[^a-zA-Z0-9_]` (src/utils.py line 95). -/
def safeChar (c : Char) : Bool :=
  (('a' ≤ c && c ≤ 'z') || ('A' ≤ c && c ≤ 'Z') || ('0' ≤ c && c ≤ '9') || c = '_')

/-- Embeds `df.columns.str.replace('[^a-zA-Z0-9_]', '_')` (src/utils.py
line 95) read as the regex substitution the pattern denotes: every
character outside `[a-zA-Z0-9_]` becomes an underscore. -/
def sanitizeName (s : String) : String :=
  ⟨s.data.map (fun c => if safeChar c then c else '_')⟩

/-- Embeds `df.dropna(how='all', axis=1)` (src/utils.py line 80): drop the
columns whose cells are all missing. -/
def dropEmptyCols (T : Table) : Table :=
  ⟨T.cols.filter (fun c => !c.values.all (fun v => v.isMissing))⟩

/-- Embeds `df.dropna(how='all', axis=0)` (src/utils.py line 81): keep the
rows holding at least one non-missing cell. -/
def dropEmptyRows (T : Table) : Table :=
  let keep := (List.range T.nRows).filter (fun i =>
    T.cols.any (fun c => !(c.values.getD i .missing).isMissing))
  ⟨T.cols.map (fun c =>
    Column.mk c.name c.dtype (keep.map (fun i => c.values.getD i .missing)))⟩

/-- Distinct rejection sites of the table-shape validation in `load_data`
(src/utils.py lines 71-92), each carrying its `st.error` message. -/
inductive LoadError where
  /-- "The uploaded file is empty" -/
  | emptyFile
  /-- "The file must contain at least 2 columns" -/
  | tooFewColumns
  /-- "The file must contain at least 1 row of data" -/
  | tooFewRows
  /-- "File contains duplicate column names. ..." -/
  | duplicateColumns
deriving DecidableEq

/-- Embeds the table validation and column sanitisation of `load_data`
(src/utils.py lines 71-97), starting from the successfully parsed
DataFrame: the empty check, dropping all-missing columns and rows, the
minimum-shape checks, the duplicate-name check
(`len(df.columns) != len(set(df.columns))`, embedded as the Nodup test it
denotes), and the column-name sanitisation.  File-level validation
(`validate_file`) and the pandas parser are external to the model. -/
def load_data (df : Table) : Except LoadError Table :=
  if df.isEmpty then .error .emptyFile
  else
    let df2 := dropEmptyRows (dropEmptyCols df)
    if df2.cols.length < 2 then .error .tooFewColumns
    else if df2.nRows < 1 then .error .tooFewRows
    else if ¬ df2.names.Nodup then .error .duplicateColumns
    else .ok ⟨df2.cols.map (fun c => Column.mk (sanitizeName c.name) c.dtype c.values)⟩

/-- Parse a decimal string: optional sign, digits, optional fractional
part.  Models the string case of `pd.to_numeric(..., errors='coerce')`
(src/utils.py line 108) on the numeric literals the model covers;
claim C10 is insensitive to the exact accepted grammar since the same
parser defines both the embedded conversion and the statement about it. -/
def parseNumStr (s : String) : Option ℚ :=
  let core := fun (ds : List Char) =>
    if ds = [] then none
    else
      let intPart := ds.takeWhile (·.isDigit)
      let rest := ds.drop intPart.length
      let frac := match rest with
        | '.' :: fs => if fs ≠ [] && fs.all (·.isDigit) then some fs else none
        | [] => some []
        | _ => none
      match frac with
      | none => none
      | some fs =>
        if intPart = [] then none
        else
          let iv : ℕ := intPart.foldl (fun a c => a * 10 + (c.toNat - '0'.toNat)) 0
          let fv : ℕ := fs.foldl (fun a c => a * 10 + (c.toNat - '0'.toNat)) 0
          some ((iv : ℚ) + (fv : ℚ) / ((10 : ℚ) ^ fs.length))
  match s.data with
  | '-' :: ds => (core ds).map (fun q => -q)
  | '+' :: ds => core ds
  | ds => core ds

/-- `pd.to_numeric(cell, errors='coerce')` on one cell: numbers pass
through, missing stays missing, strings parse or coerce to NaN. -/
def parseNum : Value → Option ℚ
  | .num q => some q
  | .missing => none
  | .str s => parseNumStr s

/-- The coerced series `pd.to_numeric(df[col], errors='coerce')`
(src/utils.py line 108). -/
def toNumericSeries (vs : List Value) : List Value :=
  vs.map (fun v => match parseNum v with
    | some q => .num q
    | none => .missing)

/-- Dtype pandas gives the coerced series: int64 when every cell is an
integer (hence no NaN), float64 otherwise. -/
def seriesDType (ns : List Value) : DType :=
  if ns.all (fun v => match v with
    | .num q => q.den == 1
    | _ => false) then .int64 else .float64

/-- The per-column body of the loop of `safe_numeric_conversion`
(src/utils.py lines 106-115): replace the column by its coerced series
exactly when the coerced series is less than 10% NaN
(`numeric_series.isna().sum() / len(numeric_series) < 0.1`, written
integrally).  On an empty column the source divides by zero, the bare
`except` swallows the error and the column stays unchanged; the condition
`10 * nanCount < length` is false there, matching that. -/
def convCol (c : Column) : Column :=
  let ns := toNumericSeries c.values
  let nanCount := ns.countP (fun v => v.isMissing)
  if 10 * nanCount < c.values.length then
    Column.mk c.name (seriesDType ns) ns
  else c

/-- Embeds `safe_numeric_conversion` (src/utils.py lines 103-116): the
conversion loop over all columns. -/
def safe_numeric_conversion (df : Table) : Table :=
  ⟨df.cols.map convCol⟩

/-! ## Chart Spec Builder (src/visualizations.py, src/main.py) -/

/-- Keyword arguments shared by the `px.bar`/`px.line`/`px.scatter`/
`px.box` calls (src/visualizations.py lines 56-61). -/
structure FigKwargs where
  title : String
  labels : List (String × String)
  animation_frame : Option String
  template : String
deriving DecidableEq

/-- The figure produced by the chart branches of `create_visualization`
(src/visualizations.py lines 64-88), one constructor per `px` call, each
carrying the arguments of the call.  Cosmetic layout mutations applied
afterwards (size, legend, grid, animation buttons; lines 91-123) affect no
claim and are absorbed into the rendering oracle. -/
inductive Fig where
  | bar (data : Table) (x y : String) (color : Option String) (kw : FigKwargs)
      (relative : Bool)
  | line (data : Table) (x y : String) (color : Option String) (kw : FigKwargs)
  | scatter (data : Table) (x y : String) (color : Option String) (kw : FigKwargs)
  | pie (data : Table) (values names : String) (title : String)
  | heatmap (pivot : Table) (title : String)
  | box (data : Table) (x y : String) (color : Option String) (kw : FigKwargs)
deriving DecidableEq

/-- Display string of a cell value, used for pivot column labels. -/
def Value.asString : Value → String
  | .num q => toString q
  | .str s => s
  | .missing => "nan"

/-- The mean cell of a pivot: mean of `values` over the rows where the
index column equals `rk` and (when present) the pivot column equals `ck`. -/
def pivotCell (data : Table) (values idx : String) (rk : Value)
    (filt : Option (String × Value)) : Value :=
  let idxs := (List.range data.nRows).filter (fun i =>
    (data.colValues idx).getD i .missing == rk &&
    (match filt with
     | none => true
     | some cf => (data.colValues cf.1).getD i .missing == cf.2))
  aggValues "mean" (idxs.map (fun i => (data.colValues values).getD i .missing))

/-- Embeds `pd.pivot_table(data, values=y, index=x, columns=color,
aggfunc='mean')` (src/visualizations.py lines 78-79).  Fails like pandas
when the values column holds non-numeric cells (mean over strings raises;
the error is caught by the caller).  With `columns=None` the pivot is over
the index alone — pandas accepts this — yielding a single aggregated
column.  Pandas sorts index and column keys; the claims are insensitive to
that order, so the model keeps first-occurrence order. -/
def pivot_table (data : Table) (values idx : String) (cols : Option String) :
    Except String Table :=
  if (data.colValues values).any (fun v => match v with
      | .str _ => true
      | _ => false) then
    .error "No numeric types to aggregate"
  else
    let rowKeys := dedupFirst ((data.colValues idx).filter (fun v => !v.isMissing))
    match cols with
    | none =>
      .ok ⟨[Column.mk idx .object rowKeys,
            Column.mk values .float64
              (rowKeys.map (fun rk => pivotCell data values idx rk none))]⟩
    | some cc =>
      let colKeys := dedupFirst ((data.colValues cc).filter (fun v => !v.isMissing))
      .ok ⟨Column.mk idx .object rowKeys ::
           colKeys.map (fun ck =>
             Column.mk ck.asString .float64
               (rowKeys.map (fun rk => pivotCell data values idx rk (some (cc, ck)))))⟩

/-- Parameters of `create_visualization` (src/visualizations.py lines
19-24).  Python's falsy defaults for `color_column`, `title`, `x_label`,
`y_label` are modelled as `Option`, `none` standing for `None` (the code
treats the empty string the same way; no claim passes one). -/
structure VizArgs where
  viz_type : String
  x_column : String
  y_column : String
  color_column : Option String := none
  title : Option String := none
  x_label : Option String := none
  y_label : Option String := none
  theme : String := "plotly"
  show_grid : Bool := true
  show_legend : Bool := true
  orientation : String := "vertical"
  animation_frame : Option String := none
deriving DecidableEq

/-- Embeds the figure-construction region of `create_visualization`
(src/visualizations.py lines 46-88): label/title defaulting, the
horizontal-orientation swap for bar/scatter/line, and the per-chart-type
branch, including the pie numeric check, the heatmap pivot with its local
error wrapping, and the unsupported-type error.  Errors are the messages of
the exceptions raised inside the inner `try`. -/
def buildFig (data : Table) (a : VizArgs) : Except String Fig :=
  let xlab := a.x_label.getD a.x_column
  let ylab := a.y_label.getD a.y_column
  let title := a.title.getD (a.viz_type.capitalize ++ " Chart")
  let swap := a.orientation == "horizontal" &&
    ["bar", "scatter", "line"].contains a.viz_type
  let x := if swap then a.y_column else a.x_column
  let y := if swap then a.x_column else a.y_column
  let xl := if swap then ylab else xlab
  let yl := if swap then xlab else ylab
  let kw : FigKwargs := ⟨title, [(x, xl), (y, yl)], a.animation_frame, a.theme⟩
  if a.viz_type == "bar" then
    .ok (.bar data x y a.color_column kw (a.orientation == "horizontal"))
  else if a.viz_type == "line" then .ok (.line data x y a.color_column kw)
  else if a.viz_type == "scatter" then .ok (.scatter data x y a.color_column kw)
  else if a.viz_type == "pie" then
    if !(numericNames data).contains a.y_column then
      .error "Values for pie chart must be numeric"
    else .ok (.pie data a.y_column a.x_column title)
  else if a.viz_type == "heatmap" then
    match pivot_table data a.y_column a.x_column a.color_column with
    | .ok p => .ok (.heatmap p title)
    | .error e => .error ("Error creating heatmap: " ++ e)
  else if a.viz_type == "box" then .ok (.box data x y a.color_column kw)
  else .error ("Unsupported visualization type: " ++ a.viz_type)

/-- Embeds `create_visualization` (src/visualizations.py lines 19-148).
The rendering calls `fig.to_html`/`fig.to_image` are external; they are
abstracted as the oracle `render`, which may fail with any message.  The
three handler layers of the source give the three error prefixes: the
outermost `except` ("Error: ") catches the upfront validations, the middle
`except` ("Error creating visualization: ") catches figure construction,
and the innermost ("Error generating visualization: ") catches rendering.
The result is the source's `(html, svg, error)` triple. -/
def create_visualization (data : Table) (a : VizArgs)
    (render : Fig → Except String (String × String)) :
    Option String × Option String × Option String :=
  if data.isEmpty then
    (none, none, some "Error: Cannot create visualization from empty dataset")
  else if !(data.names.contains a.x_column && data.names.contains a.y_column) then
    (none, none, some ("Error: Columns " ++ a.x_column ++ " or " ++ a.y_column ++
      " not found in data"))
  else if (match a.color_column with
    | some c => c ≠ "" && !data.names.contains c
    | none => false) then
    (none, none, some ("Error: Color column " ++ (a.color_column.getD "") ++
      " not found in data"))
  else
    match buildFig data a with
    | .error e => (none, none, some ("Error creating visualization: " ++ e))
    | .ok fig =>
      match render fig with
      | .error e => (none, none, some ("Error generating visualization: " ++ e))
      | .ok hs => (some hs.1, some hs.2, none)

/-- Python iterable unpacking of a tuple (given as the list of its
components) into four targets: raises `ValueError` when the arity is not
four, exactly as `a, b, c, d = t` does. -/
def unpack4 (l : List (Option String)) :
    Except String (Option String × Option String × Option String × Option String) :=
  match l with
  | [a, b, c, d] => .ok (a, b, c, d)
  | _ =>
    if l.length < 4 then
      .error ("not enough values to unpack (expected 4, got " ++
        toString l.length ++ ")")
    else .error "too many values to unpack (expected 4)"

/-- Embeds `create_visualization_with_loading` (src/main.py lines 48-64):
it unpacks the result of `create_visualization` into four targets
(`viz_html, viz_svg, viz_png, error`); the surrounding `try` catches the
unpacking `ValueError` and returns `(None, None, None, str(e))`. -/
def create_visualization_with_loading (data : Table) (a : VizArgs)
    (render : Fig → Except String (String × String)) :
    Option String × Option String × Option String × Option String :=
  let r := create_visualization data a render
  match unpack4 [r.1, r.2.1, r.2.2] with
  | .ok t => t
  | .error e => (none, none, none, some e)

/-! ## Lookup and rounding lemmas for the aggregation engine -/

theorem find?_map_eq {α β : Type} (f : α → β) (p : β → Bool) (l : List α) :
    (l.map f).find? p = (l.find? (fun a => p (f a))).map f := by
  induction l with
  | nil => rfl
  | cons a t ih =>
    cases hp : p (f a) with
    | true =>
      have h2 : List.find? (fun x => p (f x)) (a :: t) = some a :=
        List.find?_cons_of_pos _ hp
      rw [List.map_cons, List.find?_cons_of_pos _ hp, h2]
      rfl
    | false =>
      rw [List.map_cons, List.find?_cons_of_neg _ (by simp [hp]),
        List.find?_cons_of_neg _ (by simp [hp]), ih]

theorem find?_append_none {α : Type} (p : α → Bool) (l l' : List α)
    (h : l.find? p = none) : (l ++ l').find? p = l'.find? p := by
  induction l with
  | nil => rfl
  | cons a t ih =>
    rw [List.find?_cons] at h
    cases hp : p a with
    | true => rw [hp] at h; exact absurd h (by simp)
    | false =>
      rw [hp] at h
      rw [List.cons_append, List.find?_cons_of_neg _ (by simp [hp])]
      exact ih h

theorem find?_key_nodup {α β : Type} [DecidableEq β] (f : α → β) (l : List α)
    (hn : (l.map f).Nodup) (a : α) (ha : a ∈ l) :
    l.find? (fun x => f x == f a) = some a := by
  induction l with
  | nil => cases ha
  | cons b t ih =>
    rw [List.map_cons, List.nodup_cons] at hn
    rcases List.mem_cons.mp ha with rfl | hat
    · exact List.find?_cons_of_pos _ (by simp)
    · have hne : (f b == f a) = false := by
        rw [beq_eq_false_iff_ne]
        intro he
        exact hn.1 (he ▸ List.mem_map_of_mem f hat)
      rw [List.find?_cons_of_neg _ (by simp [hne]), ih hn.2 hat]

theorem findCol_of_mem_names (T : Table) (c : String) (hc : c ∈ T.names) :
    ∃ col, T.findCol c = some col ∧ col ∈ T.cols ∧ col.name = c := by
  obtain ⟨col0, hcol0, rfl⟩ := List.mem_map.mp hc
  have hsome : (T.cols.find? (fun col => col.name == col0.name)).isSome := by
    rw [List.find?_isSome]
    exact ⟨col0, hcol0, by simp⟩
  obtain ⟨col, hcol⟩ := Option.isSome_iff_exists.mp hsome
  refine ⟨col, hcol, List.mem_of_find?_eq_some hcol, ?_⟩
  have := List.find?_some hcol
  simpa using this

theorem colValues_eq_of_findCol (T : Table) (c : String) (col : Column)
    (h : T.findCol c = some col) : T.colValues c = col.values := by
  unfold Table.colValues
  rw [h]
  rfl

theorem dtypeOf_eq_of_findCol (T : Table) (c : String) (col : Column)
    (h : T.findCol c = some col) : T.dtypeOf c = col.dtype := by
  unfold Table.dtypeOf
  rw [h]
  rfl

theorem contains_numericNames_of_dtype (T : Table) (col : Column)
    (hc : col ∈ T.cols) (hd : col.dtype = .int64 ∨ col.dtype = .float64) :
    (numericNames T).contains col.name = true := by
  apply List.elem_eq_true_of_mem
  unfold numericNames
  apply List.mem_map_of_mem
  rw [List.mem_filter]
  refine ⟨hc, ?_⟩
  rcases hd with hd | hd <;> simp [hd]

theorem not_contains_numericNames (T : Table) (hn : T.names.Nodup) (col : Column)
    (hc : col ∈ T.cols) (hd : col.dtype = .object) :
    (numericNames T).contains col.name = false := by
  cases h : (numericNames T).contains col.name with
  | false => rfl
  | true =>
    exfalso
    have hmem := List.mem_of_elem_eq_true h
    unfold numericNames at hmem
    obtain ⟨col', hcol', hname⟩ := List.mem_map.mp hmem
    rw [List.mem_filter] at hcol'
    have heq : col' = col :=
      List.inj_on_of_nodup_map hn hcol'.1 hc hname
    rw [heq, hd] at hcol'
    simp at hcol'

theorem floor_half_q : ⌊(1 / 2 : ℚ)⌋ = 0 := by norm_num

theorem round2_idem (q : ℚ) : round2 (round2 q) = round2 q := by
  unfold round2
  rw [div_mul_cancel₀ _ (by norm_num : (100 : ℚ) ≠ 0), Int.floor_int_add,
    floor_half_q, add_zero]

theorem round2_intCast (z : ℤ) : round2 (z : ℚ) = z := by
  unfold round2
  have h1 : (z : ℚ) * 100 + 1 / 2 = ((z * 100 : ℤ) : ℚ) + 1 / 2 := by
    push_cast
    ring
  rw [h1, Int.floor_int_add, floor_half_q, add_zero]
  push_cast
  rw [mul_div_assoc]
  norm_num

theorem sum_intCast (l : List ℚ) (h : ∀ q ∈ l, ∃ n : ℤ, q = (n : ℚ)) :
    ∃ n : ℤ, l.sum = (n : ℚ) := by
  induction l with
  | nil => exact ⟨0, by simp⟩
  | cons a t ih =>
    obtain ⟨na, hna⟩ := h a (List.mem_cons_self a t)
    obtain ⟨nt, hnt⟩ := ih (fun q hq => h q (List.mem_cons_of_mem a hq))
    exact ⟨na + nt, by rw [List.sum_cons, hna, hnt]; push_cast; ring⟩

theorem aggValues_intCast (method : String) (vs : List Value)
    (hme : method = "sum" ∨ method = "count" ∨ method = "min" ∨ method = "max")
    (hvs : method ≠ "count" → ∀ q ∈ vs.filterMap Value.toNum?, ∃ n : ℤ, q = (n : ℚ)) :
    ∀ q, aggValues method vs = .num q → ∃ n : ℤ, q = (n : ℚ) := by
  intro q hq
  rcases hme with rfl | rfl | rfl | rfl
  · have he : aggValues "sum" vs = .num (vs.filterMap Value.toNum?).sum := rfl
    rw [he] at hq
    cases hq
    exact sum_intCast _ (hvs (by decide))
  · have he : aggValues "count" vs =
        .num ((vs.countP (fun v => !v.isMissing) : ℕ) : ℚ) := rfl
    rw [he] at hq
    cases hq
    exact ⟨(vs.countP (fun v => !v.isMissing) : ℕ), by push_cast; ring⟩
  · have he : aggValues "min" vs =
        (match foldOpt min (vs.filterMap Value.toNum?) with
         | some m => Value.num m
         | none => Value.missing) := rfl
    rw [he] at hq
    cases hf : foldOpt min (vs.filterMap Value.toNum?) with
    | none => rw [hf] at hq; cases hq
    | some m =>
      rw [hf] at hq
      cases hq
      exact hvs (by decide) q (foldOpt_mem min (fun a b => min_choice a b) _ q hf)
  · have he : aggValues "max" vs =
        (match foldOpt max (vs.filterMap Value.toNum?) with
         | some m => Value.num m
         | none => Value.missing) := rfl
    rw [he] at hq
    cases hf : foldOpt max (vs.filterMap Value.toNum?) with
    | none => rw [hf] at hq; cases hq
    | some m =>
      rw [hf] at hq
      cases hq
      exact hvs (by decide) q (foldOpt_mem max (fun a b => max_choice a b) _ q hf)

/-! ## Shape of the aggregated table -/

theorem roundCol_name (c : Column) : (roundCol c).name = c.name := by
  unfold roundCol
  split <;> rfl

theorem roundCol_length (c : Column) : (roundCol c).values.length = c.values.length := by
  unfold roundCol
  split
  · simp
  · rfl

theorem roundCol_values (c : Column) :
    (roundCol c).values =
      (if c.dtype == .float64 then c.values.map roundValue else c.values) := by
  unfold roundCol
  split <;> simp_all

theorem groupbyAgg_cols (T : Table) (gcols : List String)
    (aggs : List (String × String)) :
    (groupbyAgg T gcols aggs).cols =
      gcols.enum.map (fun jg => Column.mk jg.2 (T.dtypeOf jg.2)
        ((dedupFirst (validKeyTuples T gcols)).map (fun k => k.getD jg.1 .missing))) ++
      aggs.map (fun p => Column.mk p.1 (aggDType p.2 (T.dtypeOf p.1))
        ((dedupFirst (validKeyTuples T gcols)).map (fun k =>
          aggValues p.2 (groupValues T gcols p.1 k)))) := rfl

theorem R_names (T : Table) (gcols : List String) (aggs : List (String × String)) :
    (roundFloatCols (groupbyAgg T gcols aggs)).names =
      gcols ++ aggs.map (fun p => p.1) := by
  show ((groupbyAgg T gcols aggs).cols.map roundCol).map (fun c => c.name) = _
  rw [List.map_map]
  have hcomp : ((fun c : Column => c.name) ∘ roundCol) = fun c : Column => c.name :=
    funext (fun c => roundCol_name c)
  rw [hcomp, groupbyAgg_cols, List.map_append, List.map_map, List.map_map]
  congr 1
  exact List.enum_map_snd gcols

theorem R_col_values_length (T : Table) (gcols : List String)
    (aggs : List (String × String)) :
    ∀ c ∈ (roundFloatCols (groupbyAgg T gcols aggs)).cols,
      c.values.length = (dedupFirst (validKeyTuples T gcols)).length := by
  intro c hc
  obtain ⟨c0, hc0, rfl⟩ := List.mem_map.mp hc
  rw [roundCol_length]
  rw [groupbyAgg_cols] at hc0
  rcases List.mem_append.mp hc0 with h | h
  · obtain ⟨jg, _, rfl⟩ := List.mem_map.mp h
    simp
  · obtain ⟨p, _, rfl⟩ := List.mem_map.mp h
    simp

theorem R_cols_length (T : Table) (gcols : List String)
    (aggs : List (String × String)) :
    (roundFloatCols (groupbyAgg T gcols aggs)).cols.length =
      gcols.length + aggs.length := by
  show ((groupbyAgg T gcols aggs).cols.map roundCol).length = _
  rw [List.length_map, groupbyAgg_cols, List.length_append, List.length_map,
    List.length_map, List.enum_length]

theorem R_cols_ne_nil (T : Table) (gcols : List String)
    (aggs : List (String × String)) (hg0 : gcols ≠ []) :
    (roundFloatCols (groupbyAgg T gcols aggs)).cols ≠ [] := by
  intro h
  have hlen := R_cols_length T gcols aggs
  rw [h] at hlen
  simp only [List.length_nil] at hlen
  have h0 : gcols.length = 0 := by omega
  exact hg0 (List.length_eq_zero.mp h0)

theorem R_nRows (T : Table) (gcols : List String) (aggs : List (String × String))
    (hg0 : gcols ≠ []) :
    (roundFloatCols (groupbyAgg T gcols aggs)).nRows =
      (dedupFirst (validKeyTuples T gcols)).length := by
  cases hcols : (roundFloatCols (groupbyAgg T gcols aggs)).cols with
  | nil => exact absurd hcols (R_cols_ne_nil T gcols aggs hg0)
  | cons a t =>
    have ha : a ∈ (roundFloatCols (groupbyAgg T gcols aggs)).cols := by
      rw [hcols]
      exact List.mem_cons_self a t
    have hl := R_col_values_length T gcols aggs a ha
    unfold Table.nRows
    rw [hcols]
    simpa using hl

theorem R_not_empty (T : Table) (gcols : List String) (aggs : List (String × String))
    (hg0 : gcols ≠ []) (hdk : (dedupFirst (validKeyTuples T gcols)).length ≠ 0) :
    (roundFloatCols (groupbyAgg T gcols aggs)).isEmpty = false := by
  unfold Table.isEmpty
  have h1 : (roundFloatCols (groupbyAgg T gcols aggs)).cols.isEmpty = false := by
    cases hcols : (roundFloatCols (groupbyAgg T gcols aggs)).cols with
    | nil => exact absurd hcols (R_cols_ne_nil T gcols aggs hg0)
    | cons a t => rfl
  have h2 : ((roundFloatCols (groupbyAgg T gcols aggs)).nRows == 0) = false := by
    rw [R_nRows T gcols aggs hg0]
    exact beq_eq_false_iff_ne.mpr hdk
  rw [h1, h2]
  rfl

theorem R_colValues_agg (T : Table) (gcols : List String)
    (aggs : List (String × String))
    (hanodup : (aggs.map (fun p => p.1)).Nodup)
    (p : String × String) (hp : p ∈ aggs) (hdisj : p.1 ∉ gcols) :
    (roundFloatCols (groupbyAgg T gcols aggs)).colValues p.1 =
      (dedupFirst (validKeyTuples T gcols)).map (fun k =>
        roundIfFloat (aggDType p.2 (T.dtypeOf p.1))
          (aggValues p.2 (groupValues T gcols p.1 k))) := by
  have hfind : (roundFloatCols (groupbyAgg T gcols aggs)).findCol p.1 =
      some (roundCol (Column.mk p.1 (aggDType p.2 (T.dtypeOf p.1))
        ((dedupFirst (validKeyTuples T gcols)).map (fun k =>
          aggValues p.2 (groupValues T gcols p.1 k))))) := by
    show List.find? (fun col => col.name == p.1)
        (((groupbyAgg T gcols aggs).cols).map roundCol) = _
    rw [groupbyAgg_cols, List.map_append]
    have hkey : List.find? (fun col => col.name == p.1)
        ((gcols.enum.map (fun jg => Column.mk jg.2 (T.dtypeOf jg.2)
          ((dedupFirst (validKeyTuples T gcols)).map
            (fun k => k.getD jg.1 .missing)))).map roundCol) = none := by
      rw [List.find?_eq_none]
      intro c hc
      rw [List.map_map] at hc
      obtain ⟨jg, hjg, rfl⟩ := List.mem_map.mp hc
      show ¬ (((roundCol (Column.mk jg.2 (T.dtypeOf jg.2)
        ((dedupFirst (validKeyTuples T gcols)).map
          (fun k => k.getD jg.1 .missing)))).name == p.1) = true)
      rw [roundCol_name]
      show ¬ ((jg.2 == p.1) = true)
      rw [beq_iff_eq]
      intro heq
      apply hdisj
      rw [← heq]
      have hm := List.mem_map_of_mem Prod.snd hjg
      rw [List.enum_map_snd] at hm
      exact hm
    rw [find?_append_none _ _ _ hkey, List.map_map]
    have hkn := find?_key_nodup (fun q : String × String => q.1) aggs hanodup p hp
    have heq : (fun a : String × String => ((roundCol ∘ fun p : String × String =>
        Column.mk p.1 (aggDType p.2 (T.dtypeOf p.1))
          ((dedupFirst (validKeyTuples T gcols)).map (fun k =>
            aggValues p.2 (groupValues T gcols p.1 k)))) a).name == p.1) =
        (fun x : String × String => x.1 == p.1) := by
      funext a
      show ((roundCol (Column.mk a.1 (aggDType a.2 (T.dtypeOf a.1))
        ((dedupFirst (validKeyTuples T gcols)).map (fun k =>
          aggValues a.2 (groupValues T gcols a.1 k))))).name == p.1) = (a.1 == p.1)
      rw [roundCol_name]
    rw [find?_map_eq, heq, hkn]
    rfl
  rw [colValues_eq_of_findCol _ _ _ hfind, roundCol_values]
  dsimp only
  cases hd : (aggDType p.2 (T.dtypeOf p.1) == DType.float64) with
  | false =>
    simp only [hd, Bool.false_eq_true, if_false]
    symm
    apply List.map_congr_left
    intro k _
    unfold roundIfFloat
    rw [hd]
    simp
  | true =>
    simp only [hd, if_true]
    rw [List.map_map]
    apply List.map_congr_left
    intro k _
    show roundValue (aggValues p.2 (groupValues T gcols p.1 k)) =
      roundIfFloat (aggDType p.2 (T.dtypeOf p.1))
        (aggValues p.2 (groupValues T gcols p.1 k))
    unfold roundIfFloat
    rw [hd]
    simp

/-! ## Validation and grouping lemmas -/

theorem colValues_length (T : Table) (g : String)
    (hlen : ∀ c ∈ T.cols, c.values.length = T.nRows) (hg : g ∈ T.names) :
    (T.colValues g).length = T.nRows := by
  obtain ⟨col, hfind, hmem, _⟩ := findCol_of_mem_names T g hg
  rw [colValues_eq_of_findCol _ _ _ hfind]
  exact hlen col hmem

theorem validKeyTuples_eq (T : Table) (gcols : List String)
    (hlen : ∀ c ∈ T.cols, c.values.length = T.nRows)
    (hg : ∀ g ∈ gcols, g ∈ T.names)
    (hnomiss : ∀ g ∈ gcols, Value.missing ∉ T.colValues g) :
    validKeyTuples T gcols = keyTuples T gcols := by
  unfold validKeyTuples
  rw [List.filter_eq_self]
  intro k hk
  unfold keyTuples at hk
  obtain ⟨i, hi, rfl⟩ := List.mem_map.mp hk
  rw [List.mem_range] at hi
  cases hcont : (keyTuple T gcols i).contains Value.missing with
  | false => rfl
  | true =>
    exfalso
    have hmem := List.mem_of_elem_eq_true hcont
    unfold keyTuple at hmem
    obtain ⟨g, hgmem, hgd⟩ := List.mem_map.mp hmem
    have hglen : (T.colValues g).length = T.nRows :=
      colValues_length T g hlen (hg g hgmem)
    have hilt : i < (T.colValues g).length := by
      rw [hglen]
      exact hi
    rw [List.getD_eq_getElem?_getD, List.getElem?_eq_getElem hilt,
      Option.getD_some] at hgd
    exact hnomiss g hgmem (hgd ▸ List.getElem_mem hilt)

theorem keyTuples_length (T : Table) (gcols : List String) :
    (keyTuples T gcols).length = T.nRows := by
  unfold keyTuples
  rw [List.length_map, List.length_range]

theorem dk_length_ne_zero (T : Table) (gcols : List String)
    (hlen : ∀ c ∈ T.cols, c.values.length = T.nRows)
    (hg : ∀ g ∈ gcols, g ∈ T.names)
    (hnomiss : ∀ g ∈ gcols, Value.missing ∉ T.colValues g)
    (hrows : 0 < T.nRows) :
    (dedupFirst (validKeyTuples T gcols)).length ≠ 0 := by
  rw [validKeyTuples_eq T gcols hlen hg hnomiss]
  intro h0
  have hnil := List.length_eq_zero.mp h0
  have hkne : keyTuples T gcols ≠ [] := by
    intro h
    have := keyTuples_length T gcols
    rw [h] at this
    simp at this
    omega
  exact dedupFirst_ne_nil _ hkne hnil

theorem validate_input_ok (T : Table) (gcols : List String)
    (aggs : List (String × String))
    (hg : ∀ g ∈ gcols, g ∈ T.names)
    (hm : ∀ p ∈ aggs, p.2 ∈ (["sum", "mean", "count", "min", "max"] : List String))
    (ha : ∀ p ∈ aggs, p.1 ∈ T.names) :
    validate_input T gcols aggs = (true, "") := by
  unfold validate_input
  have h1 : gcols.all (fun c => T.names.contains c) = true := by
    rw [List.all_eq_true]
    intro g hg'
    exact List.elem_eq_true_of_mem (hg g hg')
  have h2 : aggs.all (fun p =>
      (["sum", "mean", "count", "min", "max"] : List String).contains p.2) = true := by
    rw [List.all_eq_true]
    intro p hp
    exact List.elem_eq_true_of_mem (hm p hp)
  have h3 : aggs.all (fun p => T.names.contains p.1) = true := by
    rw [List.all_eq_true]
    intro p hp
    exact List.elem_eq_true_of_mem (ha p hp)
  rw [h1, h2, h3]
  simp

theorem invalid_filter_nil (T : Table) (_hn : T.names.Nodup)
    (aggs : List (String × String))
    (hacol : ∀ p ∈ aggs, p.1 ∈ T.names)
    (hnum : ∀ p ∈ aggs, p.2 = "count" ∨ T.dtypeOf p.1 = .int64 ∨
      T.dtypeOf p.1 = .float64) :
    aggs.filter (fun p => !(numericNames T).contains p.1 && !(p.2 == "count")) = [] := by
  rw [List.filter_eq_nil_iff]
  intro p hp
  rcases hnum p hp with hc | hd | hd
  · simp [hc]
  · obtain ⟨col, hfind, hmem, hname⟩ := findCol_of_mem_names T p.1 (hacol p hp)
    have hdt := dtypeOf_eq_of_findCol T p.1 col hfind
    rw [hdt] at hd
    have hcontains : (numericNames T).contains p.1 = true := by
      rw [← hname]
      exact contains_numericNames_of_dtype T col hmem (Or.inl hd)
    simp only [Bool.not_eq_true, Bool.and_eq_true, Bool.not_eq_true']
    intro h
    rw [hcontains] at h
    exact absurd h.1 (by decide)
  · obtain ⟨col, hfind, hmem, hname⟩ := findCol_of_mem_names T p.1 (hacol p hp)
    have hdt := dtypeOf_eq_of_findCol T p.1 col hfind
    rw [hdt] at hd
    have hcontains : (numericNames T).contains p.1 = true := by
      rw [← hname]
      exact contains_numericNames_of_dtype T col hmem (Or.inr hd)
    simp only [Bool.not_eq_true, Bool.and_eq_true, Bool.not_eq_true']
    intro h
    rw [hcontains] at h
    exact absurd h.1 (by decide)

theorem process_data_unfold (T : Table) (gcols : List String)
    (aggs : List (String × String))
    (hval : validate_input T gcols aggs = (true, ""))
    (hg0 : gcols.isEmpty = false) (ha0 : aggs.isEmpty = false) :
    process_data T gcols aggs =
      (if !((aggs.filter (fun p =>
          !(numericNames T).contains p.1 && !(p.2 == "count"))).map
            (fun p => p.1)).isEmpty then
        Except.error (.nonNumericAgg ((aggs.filter (fun p =>
          !(numericNames T).contains p.1 && !(p.2 == "count"))).map (fun p => p.1)))
      else if (roundFloatCols (groupbyAgg T gcols aggs)).isEmpty then
        Except.error .emptyResult
      else Except.ok (roundFloatCols (groupbyAgg T gcols aggs))) := by
  unfold process_data
  rw [hval, hg0, ha0]
  simp

/-! ## Concrete fixtures used by witnesses and counterexamples -/

/-- Rendering oracle that always succeeds, standing for a working
`fig.to_html`/`fig.to_image` backend. -/
def exRenderOk : Fig → Except String (String × String) := fun _ => .ok ("html", "svg")

/-- The spec's end-to-end aggregation table: region A, B, A / sales 10, 20,
30. -/
def exC1 : Table :=
  ⟨[Column.mk "region" .object [.str "A", .str "B", .str "A"],
    Column.mk "sales" .float64 [.num 10, .num 20, .num 30]]⟩

/-- Expected aggregate of `exC1` on region with sales:sum. -/
def exC1res : Table :=
  ⟨[Column.mk "region" .object [.str "A", .str "B"],
    Column.mk "sales" .float64 [.num 40, .num 20]]⟩

/-- A zero-row table with the columns of `exC1`. -/
def exC1empty : Table :=
  ⟨[Column.mk "region" .object [], Column.mk "sales" .float64 []]⟩

/-! ## Claim theorems -/

/-- C1 counterexample: on a zero-row table with the claimed column types
the aggregation does not return a (0-row) table; the post-check raises
"Aggregation resulted in empty dataset". -/
theorem c1_counterexample :
    process_data exC1empty ["region"] [("sales", "sum")] =
      Except.error ProcError.emptyResult := rfl

/-- C1 (amended): for every non-empty well-formed table, non-empty
group-key columns of T free of missing values, and non-empty value-method
mapping with methods in {sum, mean, count, min, max}, numeric value
columns (unless counted) disjoint from the group keys, `process_data`
returns a table with: columns ordered group keys first then value columns
in request order; exactly one row per distinct group-key tuple of T (the
deduplicated key list, without duplicates, covering exactly the key tuples
present); each value column reduced independently by its method with
float64 results rounded to 2 decimals; and every numeric cell of a value
column fixed under 2-decimal rounding.  In particular the spec's
region/sales example yields rows {region A, sales 40}, {region B,
sales 20}. -/
theorem c1_aggregation :
    (∀ (T : Table) (gcols : List String) (aggs : List (String × String)),
      T.WF → gcols ≠ [] → (∀ g ∈ gcols, g ∈ T.names) →
      aggs ≠ [] → (aggs.map (fun p => p.1)).Nodup →
      (∀ p ∈ aggs, p.2 ∈ (["sum", "mean", "count", "min", "max"] : List String)) →
      (∀ p ∈ aggs, p.1 ∈ T.names) →
      (∀ p ∈ aggs, p.2 = "count" ∨ T.dtypeOf p.1 = .int64 ∨
        T.dtypeOf p.1 = .float64) →
      (∀ p ∈ aggs, p.1 ∉ gcols) →
      0 < T.nRows → (∀ g ∈ gcols, Value.missing ∉ T.colValues g) →
      ∃ R, process_data T gcols aggs = Except.ok R ∧
        R.names = gcols ++ aggs.map (fun p => p.1) ∧
        R.nRows = (dedupFirst (keyTuples T gcols)).length ∧
        (dedupFirst (keyTuples T gcols)).Nodup ∧
        (∀ k, k ∈ dedupFirst (keyTuples T gcols) ↔ k ∈ keyTuples T gcols) ∧
        (∀ p ∈ aggs, R.colValues p.1 = (dedupFirst (keyTuples T gcols)).map (fun k =>
          roundIfFloat (aggDType p.2 (T.dtypeOf p.1))
            (aggValues p.2 (groupValues T gcols p.1 k)))) ∧
        (∀ p ∈ aggs, ∀ v ∈ R.colValues p.1, ∀ q, v = Value.num q → round2 q = q)) ∧
    process_data exC1 ["region"] [("sales", "sum")] = Except.ok exC1res := by
  constructor
  · intro T gcols aggs hwf hg0 hgsub ha0 hanodup hmeth hacol hnum hdisj hrows hnomiss
    obtain ⟨hlen, hnodup, hadm⟩ := hwf
    have hvk := validKeyTuples_eq T gcols hlen hgsub hnomiss
    have hgi : gcols.isEmpty = false := by
      cases gcols with
      | nil => exact absurd rfl hg0
      | cons a t => rfl
    have hai : aggs.isEmpty = false := by
      cases aggs with
      | nil => exact absurd rfl ha0
      | cons a t => rfl
    have hval := validate_input_ok T gcols aggs hgsub hmeth hacol
    have hinv := invalid_filter_nil T hnodup aggs hacol hnum
    have hdk0 := dk_length_ne_zero T gcols hlen hgsub hnomiss hrows
    have hne := R_not_empty T gcols aggs hg0 hdk0
    have hok : process_data T gcols aggs =
        Except.ok (roundFloatCols (groupbyAgg T gcols aggs)) := by
      rw [process_data_unfold T gcols aggs hval hgi hai, hinv]
      simp [hne]
    have hvalsclause : ∀ p ∈ aggs,
        (roundFloatCols (groupbyAgg T gcols aggs)).colValues p.1 =
          (dedupFirst (keyTuples T gcols)).map (fun k =>
            roundIfFloat (aggDType p.2 (T.dtypeOf p.1))
              (aggValues p.2 (groupValues T gcols p.1 k))) := by
      intro p hp
      rw [← hvk]
      exact R_colValues_agg T gcols aggs hanodup p hp (hdisj p hp)
    refine ⟨roundFloatCols (groupbyAgg T gcols aggs), hok, R_names T gcols aggs,
      ?_, ?_, ?_, hvalsclause, ?_⟩
    · rw [← hvk]
      exact R_nRows T gcols aggs hg0
    · exact nodup_dedupFirst _
    · intro k
      exact mem_dedupFirst _ k
    · intro p hp v hv q hq
      rw [hvalsclause p hp] at hv
      obtain ⟨k, hk, rfl⟩ := List.mem_map.mp hv
      unfold roundIfFloat at hq
      cases hd : (aggDType p.2 (T.dtypeOf p.1) == DType.float64) with
      | true =>
        rw [hd] at hq
        simp only [if_true] at hq
        cases hagg : aggValues p.2 (groupValues T gcols p.1 k) with
        | num q0 =>
          rw [hagg] at hq
          have hq0 : round2 q0 = q := by
            have he : roundValue (Value.num q0) = Value.num (round2 q0) := rfl
            rw [he] at hq
            exact Value.num.inj hq
          rw [← hq0]
          exact round2_idem q0
        | str s =>
          rw [hagg] at hq
          exact absurd hq (by simp [roundValue])
        | missing =>
          rw [hagg] at hq
          exact absurd hq (by simp [roundValue])
      | false =>
        rw [hd] at hq
        simp only [Bool.false_eq_true, if_false] at hq
        have hW : p.2 = "sum" ∨ p.2 = "count" ∨ p.2 = "min" ∨ p.2 = "max" := by
          have h5 := hmeth p hp
          simp only [List.mem_cons, List.not_mem_nil, or_false] at h5
          rcases h5 with h | h | h | h | h
          · exact Or.inl h
          · exfalso
            rw [h] at hd
            rw [show aggDType "mean" (T.dtypeOf p.1) = DType.float64 from rfl] at hd
            simp at hd
          · exact Or.inr (Or.inl h)
          · exact Or.inr (Or.inr (Or.inl h))
          · exact Or.inr (Or.inr (Or.inr h))
        have hints : p.2 ≠ "count" →
            ∀ q' ∈ (groupValues T gcols p.1 k).filterMap Value.toNum?,
              ∃ n : ℤ, q' = (n : ℚ) := by
          intro hnc q' hq'
          have hag : aggDType p.2 (T.dtypeOf p.1) = T.dtypeOf p.1 := by
            rcases hW with h | h | h | h
            · rw [h]; rfl
            · exact absurd h hnc
            · rw [h]; rfl
            · rw [h]; rfl
          have hdt : T.dtypeOf p.1 = DType.int64 := by
            rcases hnum p hp with hc | hdd | hdd
            · exact absurd hc hnc
            · exact hdd
            · exfalso
              rw [hag, hdd] at hd
              simp at hd
          obtain ⟨col, hfindc, hmemc, hnamec⟩ := findCol_of_mem_names T p.1 (hacol p hp)
          have hcv : T.colValues p.1 = col.values := colValues_eq_of_findCol _ _ _ hfindc
          have hcd : col.dtype = DType.int64 := by
            rw [← dtypeOf_eq_of_findCol _ _ _ hfindc]
            exact hdt
          obtain ⟨v', hv'mem, hv'⟩ := List.mem_filterMap.mp hq'
          unfold groupValues at hv'mem
          obtain ⟨i, _, rfl⟩ := List.mem_map.mp hv'mem
          by_cases hilt : i < (T.colValues p.1).length
          · have hmem2 : (T.colValues p.1).getD i Value.missing ∈ T.colValues p.1 := by
              rw [List.getD_eq_getElem?_getD, List.getElem?_eq_getElem hilt,
                Option.getD_some]
              exact List.getElem_mem hilt
            rw [hcv] at hmem2
            have hadm2 := hadm col hmemc _ hmem2
            rw [hcd] at hadm2
            cases hvv : (T.colValues p.1).getD i Value.missing with
            | num q2 =>
              rw [hvv] at hv'
              rw [hcv] at hvv
              rw [hvv] at hadm2
              have hden : q2.den = 1 := hadm2
              have hq'2 : q' = q2 := by
                have he : Value.toNum? (Value.num q2) = some q2 := rfl
                rw [he] at hv'
                exact (Option.some.inj hv').symm
              exact ⟨q2.num, by
                rw [hq'2]
                exact (Rat.coe_int_num_of_den_eq_one hden).symm⟩
            | str s =>
              rw [hcv] at hvv
              rw [hvv] at hadm2
              exact absurd hadm2 (by simp [DType.admits])
            | missing =>
              rw [hcv] at hvv
              rw [hvv] at hadm2
              exact absurd hadm2 (by simp [DType.admits])
          · have hnone : (T.colValues p.1).getD i Value.missing = Value.missing := by
              rw [List.getD_eq_getElem?_getD, List.getElem?_eq_none (by omega),
                Option.getD_none]
            rw [hnone] at hv'
            exact absurd hv' (by simp [Value.toNum?])
        obtain ⟨n, hn⟩ := aggValues_intCast p.2 _ hW hints q hq
        rw [hn]
        exact round2_intCast n
  · with_unfolding_all rfl

/-- C1 witness: the amended statement instantiated on the spec's
region/sales example, every hypothesis discharged concretely. -/
theorem c1_witness :
    exC1.WF ∧ (["region"] : List String) ≠ [] ∧ 0 < exC1.nRows ∧
    (∃ R, process_data exC1 ["region"] [("sales", "sum")] = Except.ok R ∧
      R.names = ["region"] ++ [("sales", "sum")].map (fun p : String × String => p.1) ∧
      R.nRows = (dedupFirst (keyTuples exC1 ["region"])).length ∧
      (dedupFirst (keyTuples exC1 ["region"])).Nodup ∧
      (∀ k, k ∈ dedupFirst (keyTuples exC1 ["region"]) ↔
        k ∈ keyTuples exC1 ["region"]) ∧
      (∀ p ∈ ([("sales", "sum")] : List (String × String)), R.colValues p.1 =
        (dedupFirst (keyTuples exC1 ["region"])).map (fun k =>
          roundIfFloat (aggDType p.2 (exC1.dtypeOf p.1))
            (aggValues p.2 (groupValues exC1 ["region"] p.1 k)))) ∧
      (∀ p ∈ ([("sales", "sum")] : List (String × String)), ∀ v ∈ R.colValues p.1,
        ∀ q, v = Value.num q → round2 q = q)) :=
  ⟨by decide, by decide, by decide,
   c1_aggregation.1 exC1 ["region"] [("sales", "sum")] (by decide) (by decide)
     (by decide) (by decide) (by decide) (by decide) (by decide) (by decide)
     (by decide) (by decide) (by decide)⟩

/-- Two-column fixture with a non-numeric aggregation column. -/
def exC4 : Table :=
  ⟨[Column.mk "g" .object [.str "x", .str "y"],
    Column.mk "c" .object [.str "p", .str "q"]]⟩

/-- C4 counterexample: on a zero-row table, aggregating the non-numeric
column with method "count" does not succeed — the empty-result post-check
raises instead. -/
theorem c4_counterexample :
    process_data ⟨[Column.mk "g" .object [], Column.mk "c" .object []]⟩ ["g"]
      [("c", "count")] = Except.error ProcError.emptyResult := rfl

/-- C4 (amended): for every well-formed table with at least one row, a
non-numeric (object-dtype) column c, and non-empty group keys of T free of
missing values and not containing c, mapping c to "mean" yields the
non-numeric-aggregation error naming exactly c without performing the
reduction, while mapping c to "count" succeeds. -/
theorem c4_mean_vs_count (T : Table) (c : String) (gcols : List String)
    (hwf : T.WF) (hc : c ∈ T.names) (hobj : T.dtypeOf c = DType.object)
    (hg0 : gcols ≠ []) (hgsub : ∀ g ∈ gcols, g ∈ T.names) (hcg : c ∉ gcols)
    (hrows : 0 < T.nRows) (hnomiss : ∀ g ∈ gcols, Value.missing ∉ T.colValues g) :
    process_data T gcols [(c, "mean")] =
      Except.error (ProcError.nonNumericAgg [c]) ∧
    ∃ R, process_data T gcols [(c, "count")] = Except.ok R := by
  obtain ⟨hlen, hnodup, hadm⟩ := hwf
  have hgi : gcols.isEmpty = false := by
    cases gcols with
    | nil => exact absurd rfl hg0
    | cons a t => rfl
  constructor
  · have hval := validate_input_ok T gcols [(c, "mean")] hgsub
      (fun p hp => by
        rw [List.mem_singleton] at hp
        subst hp
        show ("mean" : String) ∈ _
        decide)
      (fun p hp => by
        rw [List.mem_singleton] at hp
        subst hp
        exact hc)
    rw [process_data_unfold T gcols [(c, "mean")] hval hgi rfl]
    obtain ⟨col, hfind, hmem, hname⟩ := findCol_of_mem_names T c hc
    have hdt : col.dtype = DType.object := by
      rw [← dtypeOf_eq_of_findCol T c col hfind]
      exact hobj
    have hcont : (numericNames T).contains c = false := by
      rw [← hname]
      exact not_contains_numericNames T hnodup col hmem hdt
    have hpred : (!(numericNames T).contains (c, ("mean" : String)).1 &&
        !((c, ("mean" : String)).2 == "count")) = true := by
      show (!(numericNames T).contains c && !(("mean" : String) == "count")) = true
      rw [hcont]
      rfl
    have hfilt : ([(c, "mean")] : List (String × String)).filter
        (fun p => !(numericNames T).contains p.1 && !(p.2 == "count")) =
        [(c, "mean")] := by
      rw [List.filter_cons, if_pos hpred]
      rfl
    rw [hfilt]
    simp
  · have hval := validate_input_ok T gcols [(c, "count")] hgsub
      (fun p hp => by
        rw [List.mem_singleton] at hp
        subst hp
        show ("count" : String) ∈ _
        decide)
      (fun p hp => by
        rw [List.mem_singleton] at hp
        subst hp
        exact hc)
    have hinv : ([(c, "count")] : List (String × String)).filter
        (fun p => !(numericNames T).contains p.1 && !(p.2 == "count")) = [] := by
      rw [List.filter_eq_nil_iff]
      intro p hp
      rw [List.mem_singleton] at hp
      subst hp
      simp
    have hdk0 := dk_length_ne_zero T gcols hlen hgsub hnomiss hrows
    have hne := R_not_empty T gcols [(c, "count")] hg0 hdk0
    refine ⟨roundFloatCols (groupbyAgg T gcols [(c, "count")]), ?_⟩
    rw [process_data_unfold T gcols [(c, "count")] hval hgi rfl, hinv]
    simp [hne]

/-- C4 witness: the amended statement evaluated on a concrete two-column
table. -/
theorem c4_witness :
    (exC4.WF ∧ "c" ∈ exC4.names ∧ exC4.dtypeOf "c" = DType.object ∧
      (["g"] : List String) ≠ [] ∧ 0 < exC4.nRows) ∧
    (process_data exC4 ["g"] [("c", "mean")] =
        Except.error (ProcError.nonNumericAgg ["c"]) ∧
      ∃ R, process_data exC4 ["g"] [("c", "count")] = Except.ok R) :=
  ⟨⟨by decide, by decide, by decide, by decide, by decide⟩,
   c4_mean_vs_count exC4 "c" ["g"] (by decide) (by decide) (by decide) (by decide)
     (by decide) (by decide) (by decide) (by decide)⟩

/-- C2: for every table `T`, `process_data(T, [], {})` succeeds and returns
a table equal to `T` (the source's `df.copy()`; in the value semantics of
the embedding a copy is equal to, and observationally indistinguishable
from, the original). -/
theorem c2_empty_groupkeys_identity (T : Table) :
    process_data T [] [] = Except.ok T := rfl

/-- C9: `create_visualization` returns a 3-tuple, and since
`create_visualization_with_loading` in main unpacks it into four targets,
the unpacking always raises `ValueError`, is caught, and the caller always
receives the error result `(None, None, None, str(e))` — never a
successful visualization, whatever the input and however rendering
behaves. -/
theorem c9_with_loading_always_errors (data : Table) (a : VizArgs)
    (render : Fig → Except String (String × String)) :
    create_visualization_with_loading data a render =
      (none, none, none, some "not enough values to unpack (expected 4, got 3)") := by
  unfold create_visualization_with_loading unpack4
  simp only [List.length_cons, List.length_nil]
  norm_num
  decide

/-- C3: for every input and every behaviour of the rendering backend,
`create_visualization` returns a success/error result with exclusively one
side populated: either both content components with no error, or no
content with an error message.  As a total Lean function it never raises
past its boundary. -/
theorem c3_result_pair_invariant (data : Table) (a : VizArgs)
    (render : Fig → Except String (String × String)) :
    (∃ h s, create_visualization data a render = (some h, some s, none)) ∨
    (∃ m, create_visualization data a render = (none, none, some m)) := by
  unfold create_visualization
  split
  · exact Or.inr ⟨_, rfl⟩
  · split
    · exact Or.inr ⟨_, rfl⟩
    · split
      · exact Or.inr ⟨_, rfl⟩
      · split
        · exact Or.inr ⟨_, rfl⟩
        · split
          · exact Or.inr ⟨_, rfl⟩
          · exact Or.inl ⟨_, _, rfl⟩

/-- C8 counterexample: on a concrete empty table the error message carries
the `"Error: "` prefix added by the outermost exception handler, so the
result is not the bare message the claim states. -/
theorem c8_counterexample :
    create_visualization ⟨[Column.mk "a" .object []]⟩
        { viz_type := "bar", x_column := "a", y_column := "a" } exRenderOk =
      (none, none, some "Error: Cannot create visualization from empty dataset") ∧
    some "Error: Cannot create visualization from empty dataset" ≠
      some "Cannot create visualization from empty dataset" :=
  ⟨rfl, by decide⟩

/-- C8 (amended): for every empty table, every chart type, column
selection, and rendering behaviour, `create_visualization` returns the
failure triple `(None, None, "Error: Cannot create visualization from
empty dataset")`. -/
theorem c8_empty_table_error (T : Table) (a : VizArgs)
    (render : Fig → Except String (String × String)) (h : T.isEmpty = true) :
    create_visualization T a render =
      (none, none, some "Error: Cannot create visualization from empty dataset") := by
  simp [create_visualization, h]

/-- C8 witness: the amended statement evaluated on a concrete empty
table. -/
theorem c8_witness :
    (⟨[Column.mk "a" .object []]⟩ : Table).isEmpty = true ∧
    create_visualization ⟨[Column.mk "a" .object []]⟩
        { viz_type := "pie", x_column := "a", y_column := "a" } exRenderOk =
      (none, none, some "Error: Cannot create visualization from empty dataset") :=
  ⟨rfl, c8_empty_table_error ⟨[Column.mk "a" .object []]⟩
    { viz_type := "pie", x_column := "a", y_column := "a" } exRenderOk rfl⟩

/-- C5 counterexample: a heatmap request without a `color_column` on a
concrete valid table succeeds — `create_visualization` performs no
required-color-column check; the pivot runs with `columns=None` over the
index alone. -/
theorem c5_counterexample :
    create_visualization
        ⟨[Column.mk "x" .object [.str "a", .str "b"],
          Column.mk "y" .float64 [.num 1, .num 2]]⟩
        { viz_type := "heatmap", x_column := "x", y_column := "y" } exRenderOk =
      (some "html", some "svg", none) := rfl

/-- C5 (amended): `create_visualization` requires no `color_column` for a
heatmap.  Whether or not a color column is supplied, on a non-empty table
with valid x/y columns (and, when supplied, a valid color column) the
heatmap path is exactly: pivot `y_column` by `x_column` rows and
`color_column` columns (absent meaning a pivot over the index alone) with
mean aggregation, then render the resulting matrix; a pivot failure is
wrapped by the heatmap and figure-construction handlers, not caused by a
missing color column. -/
theorem c5_heatmap_no_color_requirement (T : Table) (a : VizArgs)
    (render : Fig → Except String (String × String))
    (ht : a.viz_type = "heatmap")
    (hne : T.isEmpty = false)
    (hx : T.names.contains a.x_column = true)
    (hy : T.names.contains a.y_column = true)
    (hc : a.color_column.all (fun c => T.names.contains c) = true) :
    create_visualization T a render =
      match pivot_table T a.y_column a.x_column a.color_column with
      | .error e =>
        (none, none, some ("Error creating visualization: Error creating heatmap: " ++ e))
      | .ok p =>
        match render (Fig.heatmap p (a.title.getD "Heatmap Chart")) with
        | .error e => (none, none, some ("Error generating visualization: " ++ e))
        | .ok hs => (some hs.1, some hs.2, none) := by
  have hcolor : (match a.color_column with
      | some c => c ≠ "" && !T.names.contains c
      | none => false) = false := by
    cases hcc : a.color_column with
    | none => rfl
    | some c =>
      rw [hcc] at hc
      simp only [Option.all_some] at hc
      show (decide (c ≠ "") && !T.names.contains c) = false
      rw [hc]
      simp
  unfold create_visualization
  rw [hne, hx, hy, hcolor]
  simp only [Bool.and_self, Bool.not_true, if_neg, Bool.false_eq_true,
    not_false_eq_true, if_false, ite_false, ite_true, if_pos]
  have hbuild : buildFig T a =
      match pivot_table T a.y_column a.x_column a.color_column with
      | .ok p => .ok (.heatmap p (a.title.getD "Heatmap Chart"))
      | .error e => .error ("Error creating heatmap: " ++ e) := by
    unfold buildFig
    rw [ht, show ("heatmap".capitalize ++ " Chart") = "Heatmap Chart" from by decide]
    rfl
  rw [hbuild]
  cases pivot_table T a.y_column a.x_column a.color_column with
  | error e => rfl
  | ok p => rfl

/-- Three-column fixture for the heatmap witness: categorical x, numeric
y, categorical color column. -/
def exHeatTC : Table :=
  ⟨[Column.mk "x" .object [.str "a", .str "b", .str "a"],
    Column.mk "y" .float64 [.num 1, .num 2, .num 3],
    Column.mk "c" .object [.str "p", .str "q", .str "p"]]⟩

/-- Heatmap request with a supplied color column. -/
def exHeatArgs : VizArgs :=
  { viz_type := "heatmap", x_column := "x", y_column := "y", color_column := some "c" }

/-- C5 witness: the amended statement evaluated with a supplied color
column on a concrete table. -/
theorem c5_witness :
    (exHeatArgs.viz_type = "heatmap" ∧ exHeatTC.isEmpty = false ∧
     exHeatTC.names.contains exHeatArgs.x_column = true ∧
     exHeatTC.names.contains exHeatArgs.y_column = true ∧
     exHeatArgs.color_column.all (fun c => exHeatTC.names.contains c) = true) ∧
    create_visualization exHeatTC exHeatArgs exRenderOk =
      match pivot_table exHeatTC exHeatArgs.y_column exHeatArgs.x_column
          exHeatArgs.color_column with
      | .error e =>
        (none, none, some ("Error creating visualization: Error creating heatmap: " ++ e))
      | .ok p =>
        match exRenderOk (Fig.heatmap p (exHeatArgs.title.getD "Heatmap Chart")) with
        | .error e => (none, none, some ("Error generating visualization: " ++ e))
        | .ok hs => (some hs.1, some hs.2, none) :=
  ⟨⟨rfl, rfl, rfl, rfl, rfl⟩,
   c5_heatmap_no_color_requirement exHeatTC exHeatArgs exRenderOk rfl rfl rfl rfl rfl⟩

/-! ## Loader lemmas and claims C6, C7 -/

theorem map_eq_self_of {α : Type} (l : List α) (f : α → α) (h : ∀ a ∈ l, f a = a) :
    l.map f = l := by
  induction l with
  | nil => rfl
  | cons a t ih =>
    simp only [List.map_cons, h a (List.mem_cons_self a t)]
    rw [ih (fun x hx => h x (List.mem_cons_of_mem a hx))]

theorem range_map_getD {α : Type} (l : List α) (d : α) :
    (List.range l.length).map (fun i => l.getD i d) = l := by
  apply List.ext_getElem
  · simp
  · intro i h1 h2
    simp [List.getD_eq_getElem?_getD, List.getElem?_eq_getElem h2]

theorem dropEmptyCols_eq_self (df : Table)
    (h : ∀ c ∈ df.cols, c.values.all (fun v => v.isMissing) = false) :
    dropEmptyCols df = df := by
  unfold dropEmptyCols
  cases df with
  | mk cols =>
    congr 1
    rw [List.filter_eq_self]
    intro c hc
    rw [h c hc]
    rfl

theorem dropEmptyRows_eq_self (df : Table)
    (hlen : ∀ c ∈ df.cols, c.values.length = df.nRows)
    (hc0 : df.cols ≠ [])
    (hnm : ∀ c ∈ df.cols, ∀ v ∈ c.values, v.isMissing = false) :
    dropEmptyRows df = df := by
  obtain ⟨c0, hc0mem⟩ : ∃ c, c ∈ df.cols := by
    cases h : df.cols with
    | nil => exact absurd h hc0
    | cons a t => exact ⟨a, h ▸ List.mem_cons_self a t⟩
  have hkeep : (List.range df.nRows).filter (fun i =>
      df.cols.any (fun c => !(c.values.getD i .missing).isMissing)) =
      List.range df.nRows := by
    rw [List.filter_eq_self]
    intro i hi
    rw [List.mem_range] at hi
    rw [List.any_eq_true]
    refine ⟨c0, hc0mem, ?_⟩
    have hilt : i < c0.values.length := by rw [hlen c0 hc0mem]; exact hi
    rw [List.getD_eq_getElem?_getD, List.getElem?_eq_getElem hilt]
    simp [hnm c0 hc0mem _ (List.getElem_mem hilt)]
  unfold dropEmptyRows
  rw [hkeep]
  cases df with
  | mk cols =>
    dsimp only
    congr 1
    apply map_eq_self_of
    intro c hc
    have hl : c.values.length = Table.nRows ⟨cols⟩ := hlen c hc
    cases c with
    | mk n d vs =>
      simp only at hl
      rw [← hl, range_map_getD]

/-- The loader fixture of the claim: a parsed CSV with 3 columns and 0
rows. -/
def exT7 : Table :=
  ⟨[Column.mk "a" .object [], Column.mk "b" .object [], Column.mk "c" .object []]⟩

/-- C7 counterexample: the 0-row, 3-column table is rejected by the
`df.empty` check, whose message is "The uploaded file is empty" — the
"must contain at least 1 row" rejection site is never reached. -/
theorem c7_counterexample :
    load_data exT7 = Except.error LoadError.emptyFile ∧
    LoadError.emptyFile ≠ LoadError.tooFewRows :=
  ⟨rfl, by decide⟩

/-- C7 (amended): a table with no rows (such as a 0-row, 3-column CSV) is
rejected with the "uploaded file is empty" error; a table passing the
shape checks whose column names are not unique is rejected with the
duplicate-column-names error; in every rejection the result is the error
and no table. -/
theorem c7_loader_rejections :
    (∀ df : Table, df.isEmpty = true → load_data df = Except.error LoadError.emptyFile) ∧
    (∀ df : Table, (∀ c ∈ df.cols, c.values.length = df.nRows) → 0 < df.nRows →
      2 ≤ df.cols.length → (∀ c ∈ df.cols, ∀ v ∈ c.values, v.isMissing = false) →
      ¬ df.names.Nodup → load_data df = Except.error LoadError.duplicateColumns) := by
  constructor
  · intro df h
    simp [load_data, h]
  · intro df hlen hr hc2 hnm hnd
    have hc0 : df.cols ≠ [] := by
      intro h
      rw [h] at hc2
      simp at hc2
    have hne : df.isEmpty = false := by
      unfold Table.isEmpty
      have h1 : df.cols.isEmpty = false := by
        cases h : df.cols with
        | nil => exact absurd h hc0
        | cons a t => rfl
      have h2 : (df.nRows == 0) = false := by
        simp only [beq_eq_false_iff_ne, ne_eq]
        omega
      rw [h1, h2]
      rfl
    have hallv : ∀ c ∈ df.cols, c.values.all (fun v => v.isMissing) = false := by
      intro c hc
      cases hall : c.values.all (fun v => v.isMissing) with
      | false => rfl
      | true =>
        exfalso
        have hpos : 0 < c.values.length := by rw [hlen c hc]; exact hr
        obtain ⟨v, hv⟩ := List.exists_mem_of_length_pos hpos
        have := List.all_eq_true.mp hall v hv
        rw [hnm c hc v hv] at this
        exact Bool.false_ne_true this
    have hdrop : dropEmptyRows (dropEmptyCols df) = df := by
      rw [dropEmptyCols_eq_self df hallv]
      exact dropEmptyRows_eq_self df hlen hc0 hnm
    unfold load_data
    rw [hne, hdrop]
    simp only [Bool.false_eq_true, if_false]
    rw [if_neg (by omega), if_neg (by omega), if_pos hnd]

/-- Duplicate-name fixture that passes the shape checks. -/
def exTdup : Table :=
  ⟨[Column.mk "x" .object [.str "1"], Column.mk "x" .object [.str "2"]]⟩

/-- C7 witness: both parts of the amended statement evaluated on concrete
tables. -/
theorem c7_witness :
    (exT7.isEmpty = true ∧ load_data exT7 = Except.error LoadError.emptyFile) ∧
    ((∀ c ∈ exTdup.cols, c.values.length = exTdup.nRows) ∧ 0 < exTdup.nRows ∧
      2 ≤ exTdup.cols.length ∧
      (∀ c ∈ exTdup.cols, ∀ v ∈ c.values, v.isMissing = false) ∧
      ¬ exTdup.names.Nodup ∧
      load_data exTdup = Except.error LoadError.duplicateColumns) :=
  ⟨⟨rfl, c7_loader_rejections.1 exT7 rfl⟩,
   ⟨by decide, by decide, by decide, by decide, by decide,
    c7_loader_rejections.2 exTdup (by decide) (by decide) (by decide) (by decide)
      (by decide)⟩⟩

/-- C6 counterexample: loading a table with columns "a b" and "a_b" — a
valid upload, names unique before sanitisation — returns columns named
"a_b" and "a_b": the returned names are not unique, because the
duplicate-name check runs before sanitisation. -/
theorem c6_counterexample :
    load_data ⟨[Column.mk "a b" .object [.str "1"], Column.mk "a_b" .object [.str "2"]]⟩ =
      Except.ok ⟨[Column.mk "a_b" .object [.str "1"], Column.mk "a_b" .object [.str "2"]]⟩ ∧
    ¬ (["a_b", "a_b"] : List String).Nodup :=
  ⟨rfl, by decide⟩

/-- C6 (amended): every column name returned by `load_data` is sanitized —
made of safe identifier characters only, every other character replaced by
an underscore — but the names are only guaranteed unique before
sanitisation, which may merge distinct names into duplicates. -/
theorem c6_names_sanitized (df R : Table) (h : load_data df = Except.ok R) :
    R.names.all (fun n => n.data.all safeChar) = true := by
  unfold load_data at h
  split at h
  · exact absurd h (by simp)
  · dsimp only at h
    split at h
    · exact absurd h (by simp)
    · split at h
      · exact absurd h (by simp)
      · split at h
        · exact absurd h (by simp)
        · rw [← Except.ok.inj h]
          simp only [Table.names, List.map_map, List.all_eq_true]
          intro n hn ch hch
          simp only [List.mem_map, Function.comp] at hn
          obtain ⟨c, hc, rfl⟩ := hn
          simp only [sanitizeName, List.mem_map] at hch
          obtain ⟨x, hx, rfl⟩ := hch
          by_cases hs : safeChar x
          · simp [hs]
          · simp only [hs, Bool.false_eq_true, if_false]
            decide

/-! ## Claim C10: safe_numeric_conversion -/

theorem convCol_name (c : Column) : (convCol c).name = c.name := by
  unfold convCol
  dsimp only
  split <;> rfl

theorem convCol_values (c : Column) :
    (convCol c).values =
      if 10 * ((toNumericSeries c.values).countP (fun v => v.isMissing)) <
          c.values.length then toNumericSeries c.values else c.values := by
  unfold convCol
  dsimp only
  split <;> rfl

theorem convCol_length (c : Column) : (convCol c).values.length = c.values.length := by
  rw [convCol_values]
  split
  · simp [toNumericSeries]
  · rfl

/-- C10: `safe_numeric_conversion` preserves the columns (names in order)
and the number of rows of every column, and column-wise its values become
the coerced numeric series (unparseable entries turned missing) exactly
when strictly less than 10% of the coerced series is missing, every other
column's values staying unchanged. -/
theorem c10_safe_numeric_conversion (df : Table) :
    (safe_numeric_conversion df).names = df.names ∧
    (safe_numeric_conversion df).nRows = df.nRows ∧
    List.Forall₂ (fun c c' =>
      c'.name = c.name ∧ c'.values.length = c.values.length ∧
      c'.values = (if 10 * ((toNumericSeries c.values).countP (fun v => v.isMissing)) <
          c.values.length then toNumericSeries c.values else c.values))
      df.cols (safe_numeric_conversion df).cols := by
  refine ⟨?_, ?_, ?_⟩
  · simp only [safe_numeric_conversion, Table.names, List.map_map]
    exact List.map_congr_left (fun c _ => convCol_name c)
  · unfold Table.nRows safe_numeric_conversion
    cases df.cols with
    | nil => rfl
    | cons a t => simp [convCol_length]
  · unfold safe_numeric_conversion
    rw [List.forall₂_map_right_iff, List.forall₂_same]
    intro c _
    exact ⟨convCol_name c, convCol_length c, convCol_values c⟩

/-- Sanitised output of the C6 fixture. -/
def exT6res : Table :=
  ⟨[Column.mk "a_b" .object [.str "1"], Column.mk "a_b" .object [.str "2"]]⟩

/-- C6 witness: the amended statement evaluated on the concrete fixture. -/
theorem c6_witness :
    exT6res.names.all (fun n => n.data.all safeChar) = true :=
  c6_names_sanitized
    ⟨[Column.mk "a b" .object [.str "1"], Column.mk "a_b" .object [.str "2"]]⟩
    exT6res rfl
